import Mathlib

/-!
Verification of the selection pipeline of `code2md` (src/main.py).

The embedding translates the Python source into Lean:

* `parseOperatorValue` embeds `parse_operator_value` (the regex
  `([<>=]+)(.+)` with its greedy/backtracking behaviour);
* `sizeFilterPass` embeds the file-size filter block of `process_directory`
  (lines 255-278), including the `try/except` that silently skips a
  candidate on a malformed value;
* `globMatch` embeds `fnmatch.fnmatch` (POSIX, case-sensitive): `*`, `?`
  and `[...]` classes with `!` negation and `-` ranges; an unclosed `[`
  is a literal character;
* `shouldExcludeRule` / `shouldExclude` embed `should_exclude`
  (lines 71-116), assuming POSIX (`os.sep = '/'`);
* `getSortKey` embeds `get_sort_key` (lines 118-146); the pypinyin
  transliteration is an external library and is passed in as a function
  parameter `T`;
* `walkDir` / `processDirectory` embed the traversal of
  `process_directory` (lines 206-325) over a pure directory-tree model.
  Externally determined per-file facts (libmagic text classification,
  content-grep hit, modified-time filter outcome) are fields of
  `FileMeta`; symbolic links are not part of the tree model.

Machine integers do not occur: Python integers are unbounded, so `Nat`/
`Int` model them exactly.
-/

/-- Characters accepted by the `[<>=]+` character class of
`parse_operator_value`. -/
def opChar (c : Char) : Bool := c = '<' || c = '>' || c = '='

/-- Embeds `parse_operator_value` (src/main.py lines 186-204):
`re.match(r'([<>=]+)(.+)', pattern)`.  The first group greedily takes the
maximal run of `<`, `>`, `=`; `(.+)` requires at least one following
character that is not a newline, and on failure the regex engine gives
one character of the run back.  The captured value is the maximal
newline-free run from its starting position.  Returns `none` exactly when
the regex does not match (Python raises `ValueError`). -/
def parseOperatorValue (s : List Char) : Option (List Char × List Char) :=
  let r := (s.takeWhile opChar).length
  if r = 0 then none
  else
    match (s.drop r).head? with
    | some c =>
      if c ≠ '\n' then some (s.take r, (s.drop r).takeWhile (fun d => d ≠ '\n'))
      else if 2 ≤ r then some (s.take (r - 1), (s.drop (r - 1)).takeWhile (fun d => d ≠ '\n'))
      else none
    | none =>
      if 2 ≤ r then some (s.take (r - 1), (s.drop (r - 1)).takeWhile (fun d => d ≠ '\n'))
      else none

/-- Numeric value of a digit string (the digit-only core of Python `int`). -/
def digitsVal (s : List Char) : Nat :=
  s.foldl (fun acc c => acc * 10 + (c.toNat - '0'.toNat)) 0

/-- Embeds Python `int(str)` on the forms the program can meet: an
optional sign followed by one or more ASCII digits.  (Python `int` also
accepts surrounding whitespace, underscores between digits and non-ASCII
digits; those forms are not modelled.)  `none` models `ValueError`. -/
def parsePyInt (s : List Char) : Option Int :=
  match s with
  | '-' :: rest =>
    if rest ≠ [] && rest.all Char.isDigit then some (-(digitsVal rest : Int)) else none
  | '+' :: rest =>
    if rest ≠ [] && rest.all Char.isDigit then some ((digitsVal rest : Int)) else none
  | _ =>
    if s ≠ [] && s.all Char.isDigit then some ((digitsVal s : Int)) else none

/-- `'BKMGTP'.index c` for the characters the guard lets through
(src/main.py line 262). -/
def bkmgtpIndex (c : Char) : Nat :=
  if c = 'B' then 0 else if c = 'K' then 1 else if c = 'M' then 2
  else if c = 'G' then 3 else if c = 'T' then 4 else 5

/-- The `if/elif` comparison chain of the size filter (src/main.py lines
269-277).  An operator string outside the five handled cases falls
through every branch, so the candidate passes. -/
def sizeCmp (op : List Char) (fileSize : Nat) (target : Int) : Bool :=
  if op = ['>', '='] then decide ((fileSize : Int) ≥ target)
  else if op = ['<', '='] then decide ((fileSize : Int) ≤ target)
  else if op = ['>'] then decide ((fileSize : Int) > target)
  else if op = ['<'] then decide ((fileSize : Int) < target)
  else if op = ['=', '='] then decide ((fileSize : Int) = target)
  else true

/-- Embeds the `args.file_size` block of `process_directory`
(src/main.py lines 255-277): parse the operator and value, upper-case the
value, strip a trailing unit letter only if it is in `'KMGTP'`
(`'B'` is *not* in that guard), convert the rest with `int`, and compare.
Any `ValueError`/`IndexError` on the way is caught and the candidate is
skipped (`continue`), which this function reports as `false`. -/
def sizeFilterPass (pattern : String) (fileSize : Nat) : Bool :=
  match parseOperatorValue pattern.data with
  | none => false
  | some (op, value) =>
    let size := value.map Char.toUpper
    match size.getLast? with
    | none => false
    | some c =>
      let mult : Nat := if c ∈ ['K', 'M', 'G', 'T', 'P'] then 1024 ^ bkmgtpIndex c else 1
      let numStr := if c ∈ ['K', 'M', 'G', 'T', 'P'] then size.dropLast else size
      match parsePyInt numStr with
      | none => false
      | some n => sizeCmp op fileSize (n * (mult : Int))

example : parseOperatorValue ">1K".data = some (['>'], "1K".data) := by decide
example : parseOperatorValue "<=500B".data = some (['<', '='], "500B".data) := by decide
example : parseOperatorValue "bad-filter".data = none := by decide
example : parseOperatorValue "=1K".data = some (['='], "1K".data) := by decide
example : parseOperatorValue "<".data = none := by decide
example : parseOperatorValue "<<".data = some (['<'], ['<']) := by decide
example : sizeFilterPass ">1K" 1025 = true := by decide
example : sizeFilterPass ">1K" 1024 = false := by decide
example : sizeFilterPass "<=500B" 500 = false := by decide
example : sizeFilterPass "<=500" 500 = true := by decide

/-- Scan to the first `]`, returning the characters before it and the
rest after it; `none` if there is no `]` (then the `[` is a literal, as
in `fnmatch.translate`). -/
def scanToClose : List Char → Option (List Char × List Char)
  | [] => none
  | c :: rest =>
    if c = ']' then some ([], rest)
    else (scanToClose rest).map (fun pr => (c :: pr.1, pr.2))

/-- Embeds the bracket handling of `fnmatch.translate`: after a `[`, an
initial `!` negates, and a `]` directly after that is part of the class;
the class then runs to the next `]`.  Returns
`(negated, class contents, rest of the pattern)`. -/
def splitClass (p : List Char) : Option (Bool × List Char × List Char) :=
  match p with
  | '!' :: ']' :: t => (scanToClose t).map (fun pr => (true, ']' :: pr.1, pr.2))
  | '!' :: t => (scanToClose t).map (fun pr => (true, pr.1, pr.2))
  | ']' :: t => (scanToClose t).map (fun pr => (false, ']' :: pr.1, pr.2))
  | t => (scanToClose t).map (fun pr => (false, pr.1, pr.2))

/-- Does a character fall in a bracket class?  `a-b` is a code-point
range; a leading or trailing `-` is a literal, as in `re`/`fnmatch`. -/
def classMatch : List Char → Char → Bool
  | [], _ => false
  | [a], c => a = c
  | [a, b], c => a = c || b = c
  | a :: '-' :: b :: rest, c => (a ≤ c && c ≤ b) || classMatch rest c
  | a :: rest, c => a = c || classMatch rest c

/-- Fuelled core of the `fnmatch` shell-pattern matcher: `*` matches any
sequence (including `/`), `?` any single character, `[...]` a class; any
other pattern character is a literal.  The whole string must be consumed
(`fnmatch` anchors with `\Z`).  Structural recursion on fuel so the
matcher evaluates by kernel reduction; `globMatch` supplies fuel that
`globMatchF_fuel` proves sufficient. -/
def globMatchF : Nat → List Char → List Char → Bool
  | 0, _, _ => false
  | _ + 1, [], s => s.isEmpty
  | fuel + 1, c :: p, s =>
    if c = '*' then
      globMatchF fuel p s ||
        (match s with
         | [] => false
         | _ :: s' => globMatchF fuel (c :: p) s')
    else if c = '?' then
      match s with
      | [] => false
      | _ :: s' => globMatchF fuel p s'
    else if c = '[' then
      match splitClass p with
      | some (neg, cs, rest) =>
        (match s with
         | [] => false
         | d :: s' => (classMatch cs d != neg) && globMatchF fuel rest s')
      | none =>
        (match s with
         | '[' :: s' => globMatchF fuel p s'
         | _ => false)
    else
      match s with
      | d :: s' => (c = d) && globMatchF fuel p s'
      | _ => false

/-- Embeds `fnmatch.fnmatch(s, p)` on POSIX (where `normcase` is the
identity): shell-style wildcard matching of the whole string. -/
def globMatch (p s : List Char) : Bool :=
  globMatchF (p.length + s.length + 1) p s


theorem scanToClose_length : ∀ {l cs r : List Char},
    scanToClose l = some (cs, r) → r.length < l.length := by
  intro l
  induction l with
  | nil => intro cs r h; simp [scanToClose] at h
  | cons c t ih =>
    intro cs r h
    simp only [scanToClose] at h
    split at h
    · simp only [Option.some.injEq, Prod.mk.injEq] at h
      obtain ⟨-, h2⟩ := h
      subst h2
      simp [Nat.lt_succ_self]
    · cases hsc : scanToClose t with
      | none => rw [hsc] at h; simp at h
      | some pr =>
        obtain ⟨a, b⟩ := pr
        rw [hsc] at h
        simp only [Option.map_some', Option.some.injEq, Prod.mk.injEq] at h
        obtain ⟨-, h2⟩ := h
        subst h2
        have := ih hsc
        simp only [List.length_cons]
        omega

theorem splitClass_length : ∀ {p : List Char} {neg : Bool} {cs rest : List Char},
    splitClass p = some (neg, cs, rest) → rest.length < p.length := by
  intro p neg cs rest h
  rw [splitClass.eq_def] at h
  split at h
  · cases hsc : scanToClose ‹List Char› with
    | none => rw [hsc] at h; simp at h
    | some pr =>
      rw [hsc] at h
      simp only [Option.map_some', Option.some.injEq, Prod.mk.injEq] at h
      obtain ⟨-, -, h3⟩ := h
      subst h3
      have := scanToClose_length hsc
      simp only [List.length_cons]
      omega
  · cases hsc : scanToClose ‹List Char› with
    | none => rw [hsc] at h; simp at h
    | some pr =>
      rw [hsc] at h
      simp only [Option.map_some', Option.some.injEq, Prod.mk.injEq] at h
      obtain ⟨-, -, h3⟩ := h
      subst h3
      have := scanToClose_length hsc
      simp only [List.length_cons]
      omega
  · cases hsc : scanToClose ‹List Char› with
    | none => rw [hsc] at h; simp at h
    | some pr =>
      rw [hsc] at h
      simp only [Option.map_some', Option.some.injEq, Prod.mk.injEq] at h
      obtain ⟨-, -, h3⟩ := h
      subst h3
      have := scanToClose_length hsc
      simp only [List.length_cons]
      omega
  · cases hsc : scanToClose p with
    | none => rw [hsc] at h; simp at h
    | some pr =>
      rw [hsc] at h
      simp only [Option.map_some', Option.some.injEq, Prod.mk.injEq] at h
      obtain ⟨-, -, h3⟩ := h
      subst h3
      exact scanToClose_length hsc

theorem globMatchF_fuel : ∀ f g p s, p.length + s.length < f → p.length + s.length < g →
    globMatchF f p s = globMatchF g p s := by
  intro f
  induction f with
  | zero => intro g p s hf _; omega
  | succ f ih =>
    intro g p s hf hg
    cases g with
    | zero => omega
    | succ g =>
      cases p with
      | nil => simp only [globMatchF]
      | cons c p =>
        simp only [List.length_cons] at hf hg
        simp only [globMatchF]
        split_ifs with hstar hq hbr
        · have h1 := ih g p s (by omega) (by omega)
          cases s with
          | nil => simp [h1]
          | cons d s =>
            simp only [List.length_cons] at hf hg
            have h2 := ih g (c :: p) s (by (try simp only [List.length_cons, List.length_nil]); omega)
              (by (try simp only [List.length_cons, List.length_nil]); omega)
            simp [h1, h2]
        · cases s with
          | nil => rfl
          | cons d s =>
            simp only [List.length_cons] at hf hg
            exact ih g p s (by omega) (by omega)
        · cases hsp : splitClass p with
          | none =>
            cases s with
            | nil => rfl
            | cons d s =>
              simp only [List.length_cons] at hf hg
              have h1 := ih g p s (by omega) (by omega)
              split
              · next heq => exact Option.noConfusion heq
              · split
                · next s' heq =>
                  obtain ⟨hdeq, hseq⟩ : d = '[' ∧ s = s' := by
                    injection heq with a b; exact ⟨a, b⟩
                  subst hseq
                  exact h1
                · rfl
          | some tr =>
            obtain ⟨neg, cs, rest⟩ := tr
            cases s with
            | nil => rfl
            | cons d s =>
              simp only [List.length_cons] at hf hg
              have hlen := splitClass_length hsp
              have h1 := ih g rest s (by omega) (by omega)
              simp [h1]
        · cases s with
          | nil => rfl
          | cons d s =>
            simp only [List.length_cons] at hf hg
            have h1 := ih g p s (by omega) (by omega)
            simp [h1]

theorem globMatchF_succ_nil (f : Nat) (s : List Char) :
    globMatchF (f + 1) [] s = s.isEmpty := rfl

theorem globMatchF_succ_cons (f : Nat) (c : Char) (p s : List Char) :
    globMatchF (f + 1) (c :: p) s =
      (if c = '*' then
        globMatchF f p s ||
          (match s with
           | [] => false
           | _ :: s' => globMatchF f (c :: p) s')
      else if c = '?' then
        match s with
        | [] => false
        | _ :: s' => globMatchF f p s'
      else if c = '[' then
        match splitClass p with
        | some (neg, cs, rest) =>
          (match s with
           | [] => false
           | d :: s' => (classMatch cs d != neg) && globMatchF f rest s')
        | none =>
          (match s with
           | '[' :: s' => globMatchF f p s'
           | _ => false)
      else
        match s with
        | d :: s' => (c = d) && globMatchF f p s'
        | _ => false) := rfl

theorem globMatch_nil (s : List Char) : globMatch [] s = s.isEmpty := by
  show globMatchF (0 + s.length + 1) [] s = s.isEmpty
  rw [globMatchF_succ_nil]

theorem globMatch_star_nil (p : List Char) : globMatch ('*' :: p) [] = globMatch p [] := by
  show globMatchF ((p.length + 1) + 0 + 1) ('*' :: p) [] = _
  rw [globMatchF_succ_cons, if_pos rfl]
  show (globMatchF ((p.length + 1) + 0) p [] || false) = _
  rw [globMatchF_fuel ((p.length + 1) + 0) (p.length + 0 + 1) p [] (by (try simp only [List.length_cons, List.length_nil]); omega) (by (try simp only [List.length_cons, List.length_nil]); omega)]
  simp [globMatch]

theorem globMatch_star_cons (p : List Char) (d : Char) (s : List Char) :
    globMatch ('*' :: p) (d :: s) = (globMatch p (d :: s) || globMatch ('*' :: p) s) := by
  show globMatchF ((p.length + 1) + (s.length + 1) + 1) ('*' :: p) (d :: s) = _
  rw [globMatchF_succ_cons, if_pos rfl]
  show (globMatchF ((p.length + 1) + (s.length + 1)) p (d :: s) ||
    globMatchF ((p.length + 1) + (s.length + 1)) ('*' :: p) s) = _
  rw [globMatchF_fuel ((p.length + 1) + (s.length + 1)) (p.length + (s.length + 1) + 1) p (d :: s)
    (by (try simp only [List.length_cons, List.length_nil]); omega) (by (try simp only [List.length_cons, List.length_nil]); omega)]
  rw [globMatchF_fuel ((p.length + 1) + (s.length + 1)) ((p.length + 1) + s.length + 1) ('*' :: p) s
    (by (try simp only [List.length_cons, List.length_nil]); omega) (by (try simp only [List.length_cons, List.length_nil]); omega)]
  simp only [globMatch, List.length_cons]

theorem globMatch_qmark_nil (p : List Char) : globMatch ('?' :: p) [] = false := by
  show globMatchF ((p.length + 1) + 0 + 1) ('?' :: p) [] = false
  rw [globMatchF_succ_cons, if_neg (by decide), if_pos rfl]

theorem globMatch_qmark_cons (p : List Char) (d : Char) (s : List Char) :
    globMatch ('?' :: p) (d :: s) = globMatch p s := by
  show globMatchF ((p.length + 1) + (s.length + 1) + 1) ('?' :: p) (d :: s) = _
  rw [globMatchF_succ_cons, if_neg (by decide), if_pos rfl]
  show globMatchF ((p.length + 1) + (s.length + 1)) p s = _
  rw [globMatchF_fuel ((p.length + 1) + (s.length + 1)) (p.length + s.length + 1) p s
    (by omega) (by omega)]
  simp only [globMatch]

theorem globMatch_lit_nil (c : Char) (p : List Char) (h1 : c ≠ '*') (h2 : c ≠ '?')
    (h3 : c ≠ '[') : globMatch (c :: p) [] = false := by
  show globMatchF ((p.length + 1) + 0 + 1) (c :: p) [] = false
  rw [globMatchF_succ_cons, if_neg h1, if_neg h2, if_neg h3]

theorem globMatch_lit_cons (c : Char) (p : List Char) (d : Char) (s : List Char)
    (h1 : c ≠ '*') (h2 : c ≠ '?') (h3 : c ≠ '[') :
    globMatch (c :: p) (d :: s) = ((c = d) && globMatch p s) := by
  show globMatchF ((p.length + 1) + (s.length + 1) + 1) (c :: p) (d :: s) = _
  rw [globMatchF_succ_cons, if_neg h1, if_neg h2, if_neg h3]
  show ((c = d : Bool) && globMatchF ((p.length + 1) + (s.length + 1)) p s) = _
  rw [globMatchF_fuel ((p.length + 1) + (s.length + 1)) (p.length + s.length + 1) p s
    (by omega) (by omega)]
  simp only [globMatch]

theorem globMatch_star_all : ∀ s : List Char, globMatch ['*'] s = true := by
  intro s
  induction s with
  | nil => rw [globMatch_star_nil, globMatch_nil]; rfl
  | cons d s ih => rw [globMatch_star_cons, ih]; simp

theorem globMatch_star_star_all : ∀ s : List Char, globMatch ['*', '*'] s = true := by
  intro s
  cases s with
  | nil => rw [globMatch_star_nil, globMatch_star_nil, globMatch_nil]; rfl
  | cons d s => rw [globMatch_star_cons, globMatch_star_all]; simp

theorem globMatch_star_intro : ∀ (u : List Char) {p v : List Char}, globMatch p v = true →
    globMatch ('*' :: p) (u ++ v) = true := by
  intro u
  induction u with
  | nil =>
    intro p v h
    cases v with
    | nil => rw [List.nil_append, globMatch_star_nil]; exact h
    | cons d v => rw [List.nil_append, globMatch_star_cons, h]; simp
  | cons c u ih =>
    intro p v h
    rw [List.cons_append, globMatch_star_cons, ih h]
    simp

theorem globMatch_count_slash : ∀ n p w, p.length + w.length ≤ n → '[' ∉ p →
    globMatch p w = true → p.count '/' ≤ w.count '/' := by
  intro n
  induction n with
  | zero =>
    intro p w hle _ _
    have hp : p = [] := by cases p with | nil => rfl | cons a b => simp at hle
    subst hp
    simp
  | succ n ih =>
    intro p w hle hbr h
    cases p with
    | nil => simp
    | cons c p =>
      simp only [List.length_cons] at hle
      have hbrc : c ≠ '[' := by intro hc; exact hbr (by simp [hc])
      have hbrp : '[' ∉ p := by intro hp; exact hbr (List.mem_cons_of_mem _ hp)
      by_cases hstar : c = '*'
      · subst hstar
        cases w with
        | nil =>
          rw [globMatch_star_nil] at h
          have := ih p [] (by simp only [List.length_nil] at hle ⊢; omega) hbrp h
          simpa [List.count_cons] using this
        | cons d w =>
          simp only [List.length_cons] at hle
          rw [globMatch_star_cons] at h
          have h' : globMatch p (d :: w) = true ∨ globMatch ('*' :: p) w = true := by
            simpa using h
          rcases h' with h1 | h2
          · have := ih p (d :: w) (by simp only [List.length_cons]; omega) hbrp h1
            simp [List.count_cons] at this ⊢
            omega
          · have := ih ('*' :: p) w (by simp only [List.length_cons]; omega) hbr h2
            simp [List.count_cons] at this ⊢
            omega
      · by_cases hq : c = '?'
        · subst hq
          cases w with
          | nil => rw [globMatch_qmark_nil] at h; exact absurd h (by simp)
          | cons d w =>
            simp only [List.length_cons] at hle
            rw [globMatch_qmark_cons] at h
            have := ih p w (by omega) hbrp h
            simp [List.count_cons] at this ⊢
            omega
        · cases w with
          | nil =>
            rw [globMatch_lit_nil c p hstar hq hbrc] at h
            exact absurd h (by simp)
          | cons d w =>
            simp only [List.length_cons] at hle
            rw [globMatch_lit_cons c p d w hstar hq hbrc] at h
            simp only [Bool.and_eq_true, decide_eq_true_eq] at h
            obtain ⟨hcd, h2⟩ := h
            subst hcd
            have := ih p w (by omega) hbrp h2
            simp [List.count_cons] at this ⊢
            omega

theorem globMatch_no_bracket_slash {p w : List Char} (hbr : '[' ∉ p)
    (h : globMatch p w = true) : p.count '/' ≤ w.count '/' :=
  globMatch_count_slash (p.length + w.length) p w le_rfl hbr h

/-- `str.lstrip('/')`: drop every leading `/`. -/
def lstripSlash (s : List Char) : List Char := s.dropWhile (fun c => c = '/')

/-- `str.rstrip('/')`: drop every trailing `/`. -/
def rstripSlash (s : List Char) : List Char := (s.reverse.dropWhile (fun c => c = '/')).reverse

/-- `str.rstrip('*')`: drop every trailing `*`. -/
def rstripStar (s : List Char) : List Char := (s.reverse.dropWhile (fun c => c = '*')).reverse

/-- `str.endswith(c)` for a single character. -/
def endsWithChar (c : Char) (s : List Char) : Bool :=
  match s.getLast? with
  | some d => d = c
  | none => false

/-- `str.startswith('/')`. -/
def startsWithSlash (s : List Char) : Bool :=
  match s with
  | c :: _ => c = '/'
  | [] => false

/-- `str.endswith('**')`. -/
def endsWithTwoStars (s : List Char) : Bool :=
  match s.reverse with
  | '*' :: '*' :: _ => true
  | _ => false

/-- Embeds one iteration of the pattern loop of `should_exclude`
(src/main.py lines 86-114), on POSIX where `os.sep = '/'` (so the
`p.replace(os.sep, '/')` is the identity).  `relPath` is
`os.path.relpath(path, root_dir)` and `isDir` is `os.path.isdir(path)`.
Steps, in source order: strip leading and trailing `/`; if the original
pattern starts with `/` and the relative path equals the stripped
pattern, return `True`, otherwise keep going with the same pattern; if
the original pattern ends with `/`, append `/**`; if the pattern now
ends in `*` but not `**`, replace the trailing stars by `/*`; prepend
`**/` when the pattern has no `/`; finally `fnmatch` the relative path,
and for a directory also `fnmatch` `relPath + '/'` against
`pattern + '/*'`. -/
def shouldExcludeRule (relPath : List Char) (isDir : Bool) (pattern : List Char) : Bool :=
  let p0 := rstripSlash (lstripSlash pattern)
  if startsWithSlash pattern && relPath == p0 then true
  else
    let p1 := if endsWithChar '/' pattern then p0 ++ ['/', '*', '*'] else p0
    let p2 := if endsWithChar '*' p1 && !endsWithTwoStars p1 then rstripStar p1 ++ ['/', '*'] else p1
    let mp := if p2.contains '/' then p2 else '*' :: '*' :: '/' :: p2
    globMatch mp relPath || (isDir && globMatch (mp ++ ['/', '*']) (relPath ++ ['/']))

/-- Embeds `should_exclude` (src/main.py lines 71-116): true iff any
pattern of the list matches. -/
def shouldExclude (relPath : String) (isDir : Bool) (patterns : List String) : Bool :=
  patterns.any (fun pat => shouldExcludeRule relPath.data isDir pat.data)

example : shouldExclude "build/out.o" false ["build/"] = true := by decide
example : shouldExclude "build/sub/file.txt" false ["build/"] = true := by decide
example : shouldExclude "rebuild/file.txt" false ["build/"] = false := by decide
example : shouldExclude "build" true ["build/"] = false := by decide
example : shouldExclude "build" false ["/build"] = true := by decide
example : shouldExclude "sub/build" false ["/build"] = true := by decide
example : shouldExclude "foo.txt" false ["*.txt"] = false := by decide
example : shouldExclude "sub/foo.txt" false ["*.txt"] = true := by decide
example : globMatch "*.txt".data "foo.txt".data = true := by decide

/-- Python `str.lower()` (ASCII case folding; the filter values and
extensions the program compares are ASCII). -/
def strLower (s : String) : String := String.mk (s.data.map Char.toLower)

/-- `name.startswith('.')`. -/
def startsWithDot (s : String) : Bool :=
  match s.data with
  | '.' :: _ => true
  | _ => false

/-- Python `str.split(sep)` for a one-character separator. -/
def splitOnChar (sep : Char) : List Char → List (List Char)
  | [] => [[]]
  | c :: rest =>
    let r := splitOnChar sep rest
    if c = sep then [] :: r
    else
      match r with
      | [] => [[c]]
      | h :: t => (c :: h) :: t

/-- `rel_path.split(os.sep)` on POSIX. -/
def pathParts (relPath : String) : List String := (splitOnChar '/' relPath.data).map String.mk

/-- Embeds `get_sort_key` (src/main.py lines 118-146).  The inner
`trans` (pypinyin transliteration with a `name.lower()` fallback) calls
an external library, so it is a parameter `T`.  The Python key is the
variadic tuple `(-depth, trans(parent1), ..., trans(filename))`; two
keys produced from equal-depth paths have lists of equal length, and
unequal depths are separated by the first component, so the pair below
ordered by `keyLE` is order-isomorphic to the Python tuples. -/
def getSortKey (T : String → String) (relPath : String) : Int × List String :=
  let parts := pathParts relPath
  (-((parts.length : Int) - 1), parts.map T)

/-- Lexicographic comparison of the string tuples, matching Python's
tuple/str comparison (strings compare by code point). -/
def strListLE : List String → List String → Bool
  | [], _ => true
  | _ :: _, [] => false
  | a :: as, b :: bs => if a < b then true else if b < a then false else strListLE as bs

/-- Python tuple `<=` on sort keys. -/
def keyLE (a b : Int × List String) : Bool :=
  if a.1 < b.1 then true else if b.1 < a.1 then false else strListLE a.2 b.2

/-- Insert into a sorted list, before the first element that is not
strictly smaller (the stable position, since `le` holds on ties). -/
def orderedInsertBy (le : α → α → Bool) (x : α) : List α → List α
  | [] => [x]
  | y :: ys => if le x y then x :: y :: ys else y :: orderedInsertBy le x ys

/-- Stable insertion sort: the unique stable sort by a total preorder,
hence the same list `list.sort(key=...)` produces. -/
def insertionSortBy (le : α → α → Bool) : List α → List α
  | [] => []
  | x :: xs => orderedInsertBy le x (insertionSortBy le xs)

/-- Embeds `text_files.sort(key=lambda x: get_sort_key(x, root_dir))`
(src/main.py line 324), phrased on root-relative paths. -/
def sortPaths (T : String → String) (paths : List String) : List String :=
  insertionSortBy (fun x y => keyLE (getSortKey T x) (getSortKey T y)) paths

example : sortPaths (fun s => s) ["a.txt", "sub/b.txt"] = ["sub/b.txt", "a.txt"] := by decide

/-- One regular file as the traversal sees it.  `size` is
`os.path.getsize`; the remaining fields record the outcomes of the
external checks the pipeline makes for this file: `isText` is
`is_text_file` (libmagic / mimetypes), `grepHit` is "the content scan
of lines 303-313 found a matching line (and the file could be opened
and decoded)", `mtimeOk` is "the modified-time comparison chain of
lines 281-300 did not `continue`" (it depends on the file's timestamp). -/
structure FileMeta where
  name : String
  size : Nat
  isText : Bool
  grepHit : Bool
  mtimeOk : Bool

mutual
inductive DirNode where
  | node (files : List FileMeta) (subdirs : DirList)
inductive DirList where
  | nil
  | cons (name : String) (child : DirNode) (rest : DirList)
end

/-- The run configuration: the `args` fields `process_directory` reads.
`gitignorePatterns` is the result of `parse_gitignore` (empty when
`--gitignore` is off or the file is missing); `types` is `args.type`
with `None` mapped to `[]` (both are falsy in Python); `mtimeFilter`
records whether `args.modified_time` is set; `contentGrep` whether
`args.content_grep` is set.  Symbolic links are outside the tree model,
so `args.follow_symlinks` has no observable effect here. -/
structure Config where
  exclude : List String
  gitignorePatterns : List String
  types : List String
  fileSize : Option String
  mtimeFilter : Bool
  contentGrep : Bool
  includeInvisible : Bool
  maxDepth : Option Nat
  recursive : Bool

/-- `'/'.join` on character lists. -/
def joinSlash : List (List Char) → List Char
  | [] => []
  | [x] => x
  | x :: xs => x ++ '/' :: joinSlash xs

/-- `os.path.relpath` of a file reached through the segment list, as a
`/`-joined string. -/
def renderPath (p : List String) : String := String.mk (joinSlash (p.map String.data))

/-- Embeds `os.path.splitext(f)[1]` for a bare filename: the extension
runs from the last dot, except that a name that is all dots up to that
last dot has none (`.bashrc` → no extension). -/
def splitextExt (name : String) : String :=
  let rev := name.data.reverse
  let after := rev.takeWhile (fun c => c ≠ '.')
  match rev.dropWhile (fun c => c ≠ '.') with
  | [] => ""
  | _ :: before =>
    if before.all (fun c => c = '.') then ""
    else String.mk ('.' :: after.reverse)

example : splitextExt "a.txt" = ".txt" := by decide
example : splitextExt "Makefile" = "" := by decide
example : splitextExt ".bashrc" = "" := by decide
example : splitextExt "archive.tar.gz" = ".gz" := by decide
example : splitextExt "a." = "." := by decide

/-- Embeds the `args.type` filter (src/main.py lines 249-252):
`ext = os.path.splitext(f)[1].lower()`, rejected when `ext` is falsy or
`ext[1:]` is not in `{t.lower().lstrip('.') for t in args.type}`; no
constraint when the type list is falsy (`None` or empty). -/
def typeFilterPass (types : List String) (name : String) : Bool :=
  if types.isEmpty then true
  else
    let ext := strLower (splitextExt name)
    if ext = "" then false
    else (types.map (fun t => (strLower t).data.dropWhile (fun c => c = '.'))).contains
      (ext.data.drop 1)

example : typeFilterPass ["py", ".TXT"] "a.txt" = true := by decide
example : typeFilterPass ["py"] "Makefile" = false := by decide
example : typeFilterPass [] "Makefile" = true := by decide

/-- Embeds the per-file filter chain of `process_directory`
(src/main.py lines 241-317), in source order: exclusion check, type
filter, size filter, modified-time filter, content filter, and the
final `is_text_file` confirmation. -/
def fileAccepted (cfg : Config) (relDir : List String) (f : FileMeta) : Bool :=
  if shouldExclude (renderPath (relDir ++ [f.name])) false
      (cfg.exclude ++ cfg.gitignorePatterns) then false
  else if !(typeFilterPass cfg.types f.name) then false
  else if !(match cfg.fileSize with | none => true | some s => sizeFilterPass s f.size) then false
  else if cfg.mtimeFilter && !f.mtimeOk then false
  else if cfg.contentGrep && f.isText && !f.grepHit then false
  else f.isText

mutual
/-- Embeds the `os.walk` loop of `process_directory` (src/main.py lines
223-317) over the tree model: at each directory, if
`current_depth >= args.max_depth` the directory's files are skipped and
its subdirectories pruned (`del dirnames[:]; continue`); otherwise
hidden names are dropped unless `--include-invisible`, the surviving
files go through the filter chain, and the surviving subdirectories are
walked at depth + 1.  Results are root-relative segment lists. -/
def walkDir (cfg : Config) (relDir : List String) (depth : Nat) : DirNode → List (List String)
  | .node files subdirs =>
    if (match cfg.maxDepth with | some m => decide (m ≤ depth) | none => false) then []
    else
      ((files.filter (fun f =>
          (cfg.includeInvisible || !(startsWithDot f.name)) && fileAccepted cfg relDir f)).map
        (fun f => relDir ++ [f.name])) ++ walkSubs cfg relDir depth subdirs

/-- The subdirectory part of the walk: the hidden-name pruning of
`dirnames` followed by descent. -/
def walkSubs (cfg : Config) (relDir : List String) (depth : Nat) : DirList → List (List String)
  | .nil => []
  | .cons name child rest =>
    (if cfg.includeInvisible || !(startsWithDot name) then
      walkDir cfg (relDir ++ [name]) (depth + 1) child
    else []) ++ walkSubs cfg relDir depth rest
end

/-- Embeds `process_directory` (src/main.py lines 206-325): walk, then
the non-recursive post-filter (`os.path.dirname(f) == root_dir`, i.e.
exactly one path segment), then the sort. -/
def processDirectory (cfg : Config) (T : String → String) (root : DirNode) : List String :=
  let collected := walkDir cfg [] 0 root
  let kept := if cfg.recursive then collected else collected.filter (fun p => p.length == 1)
  sortPaths T (kept.map renderPath)

/-- A run with no filters configured: `args.recursive` on, everything
else off/empty. -/
def permissiveConfig : Config :=
  { exclude := [], gitignorePatterns := [], types := [], fileSize := none,
    mtimeFilter := false, contentGrep := false, includeInvisible := false,
    maxDepth := none, recursive := true }

/-- A plain text file that passes every per-file check. -/
def plainFile (n : String) : FileMeta :=
  { name := n, size := 10, isText := true, grepHit := true, mtimeOk := true }

/-- `a.txt` in the root, `b.txt` in subdirectory `sub`. -/
def sampleTree : DirNode :=
  .node [plainFile "a.txt"] (.cons "sub" (.node [plainFile "b.txt"] .nil) .nil)

example : processDirectory permissiveConfig (fun s => s) sampleTree =
    ["sub/b.txt", "a.txt"] := by decide

example : processDirectory { permissiveConfig with recursive := false } (fun s => s) sampleTree =
    ["a.txt"] := by decide

example : processDirectory { permissiveConfig with maxDepth := some 0 } (fun s => s) sampleTree =
    [] := by decide

example : processDirectory { permissiveConfig with maxDepth := some 1 } (fun s => s) sampleTree =
    ["a.txt"] := by decide

theorem mem_orderedInsertBy {α : Type} {le : α → α → Bool} {x y : α} {l : List α} :
    y ∈ orderedInsertBy le x l ↔ y = x ∨ y ∈ l := by
  induction l with
  | nil => simp [orderedInsertBy]
  | cons z zs ih =>
    simp only [orderedInsertBy]
    split
    · simp
    · simp only [List.mem_cons, ih]
      tauto

theorem mem_insertionSortBy {α : Type} {le : α → α → Bool} {y : α} {l : List α} :
    y ∈ insertionSortBy le l ↔ y ∈ l := by
  induction l with
  | nil => simp [insertionSortBy]
  | cons z zs ih =>
    simp only [insertionSortBy, mem_orderedInsertBy, ih, List.mem_cons]

theorem mem_sortPaths {T : String → String} {p : String} {l : List String} :
    p ∈ sortPaths T l ↔ p ∈ l := mem_insertionSortBy

mutual
theorem walkDir_not_excluded {cfg : Config} {relDir : List String} {depth : Nat}
    {node : DirNode} {q : List String} (h : q ∈ walkDir cfg relDir depth node) :
    shouldExclude (renderPath q) false (cfg.exclude ++ cfg.gitignorePatterns) = false := by
  cases node with
  | node files subdirs =>
    rw [walkDir] at h
    split at h
    · simp at h
    · rcases List.mem_append.mp h with hleft | hright
      · obtain ⟨f, hf, hfq⟩ := List.mem_map.mp hleft
        obtain ⟨-, hpred⟩ := List.mem_filter.mp hf
        have hacc : fileAccepted cfg relDir f = true :=
          (Bool.and_eq_true .. ▸ hpred).2
        subst hfq
        cases hex : shouldExclude (renderPath (relDir ++ [f.name])) false
            (cfg.exclude ++ cfg.gitignorePatterns) with
        | false => rfl
        | true => rw [fileAccepted, hex] at hacc; simp at hacc
      · exact walkSubs_not_excluded hright

theorem walkSubs_not_excluded {cfg : Config} {relDir : List String} {depth : Nat}
    {l : DirList} {q : List String} (h : q ∈ walkSubs cfg relDir depth l) :
    shouldExclude (renderPath q) false (cfg.exclude ++ cfg.gitignorePatterns) = false := by
  cases l with
  | nil => rw [walkSubs] at h; simp at h
  | cons name child rest =>
    rw [walkSubs] at h
    rcases List.mem_append.mp h with hleft | hright
    · split at hleft
      · exact walkDir_not_excluded hleft
      · simp at hleft
    · exact walkSubs_not_excluded hright
end

/-- C7: every path in the final output of `process_directory` tests
false against the same combined exclusion rule set (explicit rules
followed by the gitignore rules): a path is never both excluded and in
the output. -/
theorem c7_output_never_excluded (cfg : Config) (T : String → String) (root : DirNode)
    (p : String) (hp : p ∈ processDirectory cfg T root) :
    shouldExclude p false (cfg.exclude ++ cfg.gitignorePatterns) = false := by
  simp only [processDirectory] at hp
  rw [mem_sortPaths] at hp
  obtain ⟨q, hq, rfl⟩ := List.mem_map.mp hp
  have hq' : q ∈ walkDir cfg [] 0 root := by
    by_cases hrec : cfg.recursive = true
    · simpa [hrec] using hq
    · have hrec' : cfg.recursive = false := by
        cases hcr : cfg.recursive
        · rfl
        · exact absurd hcr hrec
      have hq2 : q ∈ walkDir cfg [] 0 root ∧ q.length = 1 := by
        simpa [hrec', List.mem_filter] using hq
      exact hq2.1
  exact walkDir_not_excluded hq'

theorem c7_witness :
    shouldExclude "a.txt" false
      (permissiveConfig.exclude ++ permissiveConfig.gitignorePatterns) = false :=
  c7_output_never_excluded permissiveConfig (fun s => s) sampleTree "a.txt" (by decide)

/-- C1 (code bug, evaluation at the failing input): the sort key is
`(-depth, ...)` under an ascending sort, so the deeper path
`sub/b.txt` sorts strictly before the shallower `a.txt`, for every
transliteration function — the opposite of the claim and of
`get_sort_key`'s own docstring ("shallow first"). -/
theorem c1_deeper_paths_sort_first :
    sortPaths (fun s => s) ["a.txt", "sub/b.txt"] = ["sub/b.txt", "a.txt"] ∧
    (∀ T : String → String,
      keyLE (getSortKey T "sub/b.txt") (getSortKey T "a.txt") = true ∧
      keyLE (getSortKey T "a.txt") (getSortKey T "sub/b.txt") = false) := by
  refine ⟨by decide, fun T => ⟨?_, ?_⟩⟩ <;> rfl

/-- C2 counterexample: with max depth 0 the claim fails — a root file
that passes every per-file check (first conjunct) still never appears:
the run's output is empty (second conjunct). -/
theorem c2_counterexample :
    fileAccepted { permissiveConfig with maxDepth := some 0 } [] (plainFile "a.txt") = true ∧
    processDirectory { permissiveConfig with maxDepth := some 0 } (fun s => s) sampleTree
      = [] := by
  refine ⟨by decide, by decide⟩

/-- C2 (amended): max depth 0 prunes the root directory itself
(`current_depth >= max_depth` holds at the root, and the `continue`
skips the root's files too), so nothing is visited and the output is
always empty; the root's direct children require max depth at least 1. -/
theorem c2_depth_zero_visits_nothing (cfg : Config) (T : String → String) (root : DirNode)
    (h : cfg.maxDepth = some 0) :
    walkDir cfg [] 0 root = [] ∧ processDirectory cfg T root = [] := by
  have hw : walkDir cfg [] 0 root = [] := by
    cases root with
    | node files subdirs => rw [walkDir]; rw [if_pos (by rw [h]; simp)]
  refine ⟨hw, ?_⟩
  simp only [processDirectory, hw]
  cases hrec : cfg.recursive <;> simp [sortPaths, insertionSortBy]

theorem c2_witness :
    walkDir { permissiveConfig with maxDepth := some 0 } [] 0 sampleTree = [] ∧
    processDirectory { permissiveConfig with maxDepth := some 0 } (fun s => s) sampleTree
      = [] :=
  c2_depth_zero_visits_nothing { permissiveConfig with maxDepth := some 0 }
    (fun s => s) sampleTree rfl

/-- C3 (code bug, evaluation at the failing input): `>1K` accepts 1025
bytes and rejects 1024 bytes as claimed, but `<=500B` rejects a file of
exactly 500 bytes: the guard `size[-1] in 'KMGTP'` omits `B`, so the
suffix is not stripped, `int("500B")` raises `ValueError`, and the
`except` clause skips the candidate.  (`<=500` without the unit accepts
it, showing the comparison itself is fine.) -/
theorem c3_size_filter_eval :
    sizeFilterPass ">1K" 1025 = true ∧ sizeFilterPass ">1K" 1024 = false ∧
    sizeFilterPass "<=500B" 500 = false ∧ sizeFilterPass "<=500" 500 = true := by
  refine ⟨by decide, by decide, by decide, by decide⟩

/-- C10: whenever the extension-filter list is non-empty, a candidate
whose filename splits off an empty extension is rejected by the filter
chain, whatever its other attributes. -/
theorem c10_no_extension_rejected (cfg : Config) (relDir : List String) (f : FileMeta)
    (htypes : cfg.types ≠ []) (hext : splitextExt f.name = "") :
    fileAccepted cfg relDir f = false := by
  have htp : typeFilterPass cfg.types f.name = false := by
    rw [typeFilterPass]
    rw [if_neg (by simpa [List.isEmpty_iff] using htypes)]
    rw [hext]
    rfl
  simp [fileAccepted, htp]

theorem c10_witness :
    fileAccepted { permissiveConfig with types := ["py"] } [] (plainFile "Makefile")
      = false :=
  c10_no_extension_rejected { permissiveConfig with types := ["py"] } [] (plainFile "Makefile")
    (by decide) (by decide)

theorem mem_of_mem_dropWhile {α : Type} {p : α → Bool} :
    ∀ {l : List α} {c : α}, c ∈ l.dropWhile p → c ∈ l := by
  intro l
  induction l with
  | nil => intro c h; simp [List.dropWhile] at h
  | cons a t ih =>
    intro c h
    rw [List.dropWhile] at h
    split at h
    · exact List.mem_cons_of_mem _ (ih h)
    · exact h

theorem mem_of_mem_lstripSlash {c : Char} {l : List Char} (h : c ∈ lstripSlash l) : c ∈ l :=
  mem_of_mem_dropWhile h

theorem mem_of_mem_rstripSlash {c : Char} {l : List Char} (h : c ∈ rstripSlash l) : c ∈ l := by
  rw [rstripSlash] at h
  rw [List.mem_reverse] at h
  exact List.mem_reverse.mp (mem_of_mem_dropWhile h)

theorem mem_of_mem_rstripStar {c : Char} {l : List Char} (h : c ∈ rstripStar l) : c ∈ l := by
  rw [rstripStar] at h
  rw [List.mem_reverse] at h
  exact List.mem_reverse.mp (mem_of_mem_dropWhile h)

theorem lstripSlash_eq_self {l : List Char} (h : '/' ∉ l) : lstripSlash l = l := by
  cases l with
  | nil => rfl
  | cons a t =>
    have ha : a ≠ '/' := fun he => h (he ▸ List.mem_cons_self a t)
    rw [lstripSlash, List.dropWhile]
    simp [ha]

theorem rstripSlash_eq_self {l : List Char} (h : '/' ∉ l) : rstripSlash l = l := by
  rw [rstripSlash]
  have h' : l.reverse.dropWhile (fun c => c = '/') = l.reverse := by
    cases hl : l.reverse with
    | nil => rfl
    | cons a t =>
      have ha : a ≠ '/' := by
        intro he
        apply h
        rw [← List.mem_reverse, hl, he]
        exact List.mem_cons_self _ _
      rw [List.dropWhile]
      simp [ha]
  rw [h', List.reverse_reverse]

theorem startsWithSlash_eq_false {l : List Char} (h : '/' ∉ l) : startsWithSlash l = false := by
  cases l with
  | nil => rfl
  | cons a t =>
    have ha : a ≠ '/' := fun he => h (he ▸ List.mem_cons_self a t)
    simp [startsWithSlash, ha]

theorem endsWithChar_eq_false {c : Char} {l : List Char} (h : c ∉ l) :
    endsWithChar c l = false := by
  rw [endsWithChar]
  cases hl : l.getLast? with
  | none => rfl
  | some d =>
    have hd : d ∈ l := List.mem_of_getLast?_eq_some hl
    have : d ≠ c := fun he => h (he ▸ hd)
    simp [this]

theorem contains_eq_false {c : Char} {l : List Char} (h : c ∉ l) : l.contains c = false := by
  simp [List.contains, h]

theorem globMatch_plain_append : ∀ (pre p s : List Char),
    pre.all (fun c => !(c = '*' || c = '?' || c = '[')) = true →
    globMatch (pre ++ p) (pre ++ s) = globMatch p s := by
  intro pre
  induction pre with
  | nil => intro p s _; rfl
  | cons c cs ih =>
    intro p s hall
    simp only [List.all_cons, Bool.and_eq_true, Bool.not_eq_true', Bool.or_eq_false_iff,
      decide_eq_false_iff_not] at hall
    obtain ⟨⟨⟨h1, h2⟩, h3⟩, hcs⟩ := hall
    rw [List.cons_append, List.cons_append, globMatch_lit_cons c _ c _ h1 h2 h3]
    rw [ih p s hcs]
    simp

/-- C4 counterexample: the directory-only rule `build/` does not match
the path `build` itself (as a directory): the rule becomes the pattern
`build/**`, which requires a separator after `build`, and the extra
directory check `fnmatch('build/', 'build/**/*')` requires even one
more; the claim that `build/` "excludes `build` itself" is false. -/
theorem c4_counterexample :
    shouldExclude "build" true ["build/"] = false ∧
    shouldExclude "build" false ["build/"] = false := by
  refine ⟨by decide, by decide⟩

/-- C4 (amended): the rule `build/` excludes every path strictly below
`build` (any relative path of the form `build/...`, file or directory),
and does not exclude `rebuild/file.txt` — but it does not match the
path `build` itself. -/
theorem c4_directory_rule_scope :
    (∀ (s : List Char) (d : Bool),
      shouldExcludeRule ("build/".data ++ s) d "build/".data = true) ∧
    shouldExclude "build/out.o" false ["build/"] = true ∧
    shouldExclude "build/sub/file.txt" false ["build/"] = true ∧
    shouldExclude "rebuild/file.txt" false ["build/"] = false ∧
    shouldExclude "build" true ["build/"] = false := by
  refine ⟨?_, by decide, by decide, by decide, by decide⟩
  intro s d
  have heq : shouldExcludeRule ("build/".data ++ s) d "build/".data =
      (globMatch ("build/".data ++ "**".data) ("build/".data ++ s) ||
        (d && globMatch "build/**/*".data (("build/".data ++ s) ++ ['/']))) := rfl
  rw [heq, globMatch_plain_append "build/".data "**".data s (by decide)]
  have h2 : globMatch "**".data s = true := globMatch_star_star_all s
  rw [h2]
  simp

/-- C5 counterexample: the anchored rule `/build` (normalized form
`build`) also matches `sub/build`, a path different from the normalized
rule: the failed exact comparison does not stop the iteration, and the
rule then goes through the generic matching as the pattern `**/build`. -/
theorem c5_counterexample :
    shouldExclude "sub/build" false ["/build"] = true ∧
    ("sub/build" : String) ≠ "build" ∧
    rstripSlash (lstripSlash "/build".data) = "build".data := by
  refine ⟨by decide, by decide, by decide⟩

/-- C5 (amended): an anchored rule (leading `/`) does match whenever the
relative path equals the stripped rule, but the anchored branch does not
short-circuit the generic glob matching of the same rule, so an anchored
rule can match further paths as well — `/build` also matches
`sub/build`. -/
theorem c5_anchored_rule_matching :
    (∀ (pat rel : List Char) (d : Bool),
      startsWithSlash pat = true → rel = rstripSlash (lstripSlash pat) →
      shouldExcludeRule rel d pat = true) ∧
    shouldExclude "sub/build" false ["/build"] = true := by
  refine ⟨?_, by decide⟩
  intro pat rel d hanch hrel
  subst hrel
  simp [shouldExcludeRule, hanch]

theorem c5_witness : shouldExcludeRule "build".data true "/build".data = true :=
  c5_anchored_rule_matching.1 "/build".data "build".data true (by decide) (by decide)

theorem noslash_rule_no_root_match (rule rel : List Char) (d : Bool)
    (hrs : '/' ∉ rule) (hrb : '[' ∉ rule) (hps : '/' ∉ rel) :
    shouldExcludeRule rel d rule = false := by
  have hp0 : rstripSlash (lstripSlash rule) = rule := by
    rw [lstripSlash_eq_self hrs, rstripSlash_eq_self hrs]
  have hanch : startsWithSlash rule = false := startsWithSlash_eq_false hrs
  have hends : endsWithChar '/' rule = false := endsWithChar_eq_false hrs
  have hcrel : rel.count '/' = 0 := List.count_eq_zero_of_not_mem hps
  have hcreldir : (rel ++ ['/']).count '/' = 1 := by
    rw [List.count_append, hcrel]
    decide
  cases hstar : endsWithChar '*' rule && !endsWithTwoStars rule with
  | true =>
    have hqs : '/' ∉ rstripStar rule := fun hm => hrs (mem_of_mem_rstripStar hm)
    have hqb : '[' ∉ rstripStar rule := fun hm => hrb (mem_of_mem_rstripStar hm)
    have hcont : (rstripStar rule ++ ['/', '*']).contains '/' = true := by
      simp [List.contains]
    have hmpb : '[' ∉ rstripStar rule ++ ['/', '*'] := by
      intro hm
      rcases List.mem_append.mp hm with h | h
      · exact hqb h
      · simp at h
    have hmpc : (rstripStar rule ++ ['/', '*']).count '/' = 1 := by
      rw [List.count_append, List.count_eq_zero_of_not_mem hqs]
      decide
    have hm1 : globMatch (rstripStar rule ++ ['/', '*']) rel = false := by
      cases hg : globMatch (rstripStar rule ++ ['/', '*']) rel with
      | false => rfl
      | true =>
        have := globMatch_no_bracket_slash hmpb hg
        rw [hmpc, hcrel] at this
        omega
    have hm2 : globMatch (rstripStar rule ++ ['/', '*', '/', '*']) (rel ++ ['/'])
        = false := by
      cases hg : globMatch (rstripStar rule ++ ['/', '*', '/', '*']) (rel ++ ['/']) with
      | false => rfl
      | true =>
        have hb2 : '[' ∉ rstripStar rule ++ ['/', '*', '/', '*'] := by
          intro hm
          rcases List.mem_append.mp hm with h | h
          · exact hqb h
          · simp at h
        have := globMatch_no_bracket_slash hb2 hg
        rw [List.count_append, List.count_eq_zero_of_not_mem hqs, hcreldir] at this
        have hc4 : List.count '/' ['/', '*', '/', '*'] = 2 := by decide
        rw [hc4] at this
        omega
    simp [shouldExcludeRule, hp0, hanch, hends, hstar, hcont, hm1, hm2]
  | false =>
    have hcont : rule.contains '/' = false := contains_eq_false hrs
    have hmpb : '[' ∉ '*' :: '*' :: '/' :: rule := by
      intro hm
      simp only [List.mem_cons] at hm
      rcases hm with h | h | h | h
      · exact absurd h (by decide)
      · exact absurd h (by decide)
      · exact absurd h (by decide)
      · exact hrb h
    have hmpc : ('*' :: '*' :: '/' :: rule).count '/' = 1 := by
      simp [List.count_cons, List.count_eq_zero_of_not_mem hrs]
    have hm1 : globMatch ('*' :: '*' :: '/' :: rule) rel = false := by
      cases hg : globMatch ('*' :: '*' :: '/' :: rule) rel with
      | false => rfl
      | true =>
        have := globMatch_no_bracket_slash hmpb hg
        rw [hmpc, hcrel] at this
        omega
    have hm2 : globMatch ('*' :: '*' :: '/' :: (rule ++ ['/', '*'])) (rel ++ ['/'])
        = false := by
      cases hg : globMatch ('*' :: '*' :: '/' :: (rule ++ ['/', '*'])) (rel ++ ['/']) with
      | false => rfl
      | true =>
        have hb2 : '[' ∉ '*' :: '*' :: '/' :: (rule ++ ['/', '*']) := by
          intro hm
          simp only [List.mem_cons, List.mem_append] at hm
          rcases hm with h | h | h | h | h
          · exact absurd h (by decide)
          · exact absurd h (by decide)
          · exact absurd h (by decide)
          · exact hrb h
          · simp at h
        have := globMatch_no_bracket_slash hb2 hg
        have hcalc : List.count '/' ('*' :: '*' :: '/' :: (rule ++ ['/', '*'])) = 2 := by
          simp [List.count_cons, List.count_append, List.count_eq_zero_of_not_mem hrs]
        rw [hcalc, hcreldir] at this
        omega
    simp [shouldExcludeRule, hp0, hanch, hends, hstar, hcont, hm1, hm2, hrs]

theorem noslash_rule_basename_match (rule dirs b : List Char) (d : Bool)
    (hrs : '/' ∉ rule) (hstar : endsWithChar '*' rule = false)
    (hb : globMatch rule b = true) :
    shouldExcludeRule (dirs ++ '/' :: b) d rule = true := by
  have hp0 : rstripSlash (lstripSlash rule) = rule := by
    rw [lstripSlash_eq_self hrs, rstripSlash_eq_self hrs]
  have hanch : startsWithSlash rule = false := startsWithSlash_eq_false hrs
  have hends : endsWithChar '/' rule = false := endsWithChar_eq_false hrs
  have hstar2 : (endsWithChar '*' rule && !endsWithTwoStars rule) = false := by
    rw [hstar]
    rfl
  have hcont : rule.contains '/' = false := contains_eq_false hrs
  have hmatch : globMatch ('*' :: '*' :: '/' :: rule) (dirs ++ '/' :: b) = true := by
    apply globMatch_star_intro dirs
    have hlit : globMatch ('/' :: rule) ('/' :: b) = true := by
      rw [globMatch_lit_cons '/' rule '/' b (by decide) (by decide) (by decide)]
      simp [hb]
    have h2 := globMatch_star_intro [] hlit
    simpa using h2
  simp [shouldExcludeRule, hp0, hanch, hends, hstar2, hcont, hmatch, hrs]

/-- C8 counterexample: the separator-free rule `*.txt` glob-matches the
basename `foo.txt`, yet the root-level path `foo.txt` (depth 0, no
separator) is not excluded: the built pattern `**/*.txt` demands a
separator in the path. -/
theorem c8_counterexample :
    globMatch "*.txt".data "foo.txt".data = true ∧
    shouldExclude "foo.txt" false ["*.txt"] = false := by
  refine ⟨by decide, by decide⟩

/-- C8 (amended): a separator-free rule is matched through the pattern
`**/rule`, which requires at least one path separator: a root-level
(separator-free) relative path is never matched by such a rule (first
part, shown for rules without bracket classes), while a path
`dirs/base` whose final segment glob-matches the rule is matched
(second part, shown for rules not ending in `*` — a trailing single `*`
instead triggers the direct-children rewrite). -/
theorem c8_basename_rule_depth :
    (∀ (rule rel : List Char) (d : Bool), '/' ∉ rule → '[' ∉ rule → '/' ∉ rel →
      shouldExcludeRule rel d rule = false) ∧
    (∀ (rule dirs b : List Char) (d : Bool), '/' ∉ rule →
      endsWithChar '*' rule = false → globMatch rule b = true →
      shouldExcludeRule (dirs ++ '/' :: b) d rule = true) :=
  ⟨noslash_rule_no_root_match, noslash_rule_basename_match⟩

theorem c8_witness :
    shouldExcludeRule "foo.txt".data false "*.txt".data = false ∧
    shouldExcludeRule ("sub".data ++ '/' :: "foo.txt".data) false "*.txt".data = true :=
  ⟨c8_basename_rule_depth.1 "*.txt".data "foo.txt".data false (by decide) (by decide)
      (by decide),
   c8_basename_rule_depth.2 "*.txt".data "sub".data "foo.txt".data false (by decide)
      (by decide) (by decide)⟩

theorem parseOperatorValue_eq_none_iff (s : List Char) (hnl : '\n' ∉ s) :
    parseOperatorValue s = none ↔
      ((s.takeWhile opChar).length = 0 ∨
        ((s.takeWhile opChar).length = 1 ∧ s.length = 1)) := by
  have hrle : (s.takeWhile opChar).length ≤ s.length :=
    (List.takeWhile_sublist opChar).length_le
  simp only [parseOperatorValue]
  by_cases hr0 : (s.takeWhile opChar).length = 0
  · simp [hr0]
  · rw [if_neg hr0]
    cases hdrop : s.drop (s.takeWhile opChar).length with
    | nil =>
      have hlen : s.length ≤ (s.takeWhile opChar).length := List.drop_eq_nil_iff.mp hdrop
      simp only [List.head?_nil]
      by_cases h2 : 2 ≤ (s.takeWhile opChar).length
      · rw [if_pos h2]
        constructor
        · intro h
          exact Option.noConfusion h
        · rintro (h | ⟨h1, _⟩)
          · exact absurd h hr0
          · omega
      · rw [if_neg h2]
        constructor
        · intro _
          right
          omega
        · intro _
          rfl
    | cons a t =>
      have ha : a ≠ '\n' := by
        intro he
        have hmem : '\n' ∈ s.drop (s.takeWhile opChar).length := by
          rw [hdrop, ← he]
          exact List.mem_cons_self _ _
        exact hnl (List.mem_of_mem_drop hmem)
      simp only [List.head?_cons]
      rw [if_pos ha]
      constructor
      · intro h
        exact Option.noConfusion h
      · rintro (h | ⟨h1, h2⟩)
        · exact absurd h hr0
        · have hnil : s.drop (s.takeWhile opChar).length = [] :=
            List.drop_eq_nil_iff.mpr (by omega)
          rw [hdrop] at hnil
          exact List.noConfusion hnil

/-- C6 counterexample: `=1K` has no operator prefix from
`{>=, <=, ==, >, <}` yet parsing succeeds (operator `=`, value `1K`),
because the regex accepts any nonempty run of `<`, `>`, `=`; and a
malformed top-level filter string is not surfaced: with size filter
`bad-filter` the run completes normally, silently producing an empty
list instead of the two files the same tree yields without the filter. -/
theorem c6_counterexample :
    ([">=", "<=", "==", ">", "<"].any (fun op => op.data.isPrefixOf "=1K".data)) = false ∧
    parseOperatorValue "=1K".data = some ("=".data, "1K".data) ∧
    processDirectory { permissiveConfig with fileSize := some "bad-filter" } (fun s => s)
      sampleTree = [] ∧
    processDirectory permissiveConfig (fun s => s) sampleTree = ["sub/b.txt", "a.txt"] := by
  refine ⟨by decide, by decide, by decide, by decide⟩

/-- C6 (amended): for newline-free strings, operator-value parsing
fails exactly when the string has no leading `<`, `>` or `=` character,
or consists of exactly one such character — a leading run of these
characters always parses as the operator, whether or not it is one of
the five listed operators.  A top-level parse failure is not surfaced:
the `except` around the size filter turns it into a silent per-candidate
rejection. -/
theorem c6_malformed_filter (s : List Char) (pat : String) (sz : Nat)
    (hnl : '\n' ∉ s) (hfail : parseOperatorValue pat.data = none) :
    (parseOperatorValue s = none ↔
      ((s.takeWhile opChar).length = 0 ∨
        ((s.takeWhile opChar).length = 1 ∧ s.length = 1))) ∧
    sizeFilterPass pat sz = false := by
  refine ⟨parseOperatorValue_eq_none_iff s hnl, ?_⟩
  simp [sizeFilterPass, hfail]

theorem c6_witness :
    (parseOperatorValue "bad-filter".data = none ↔
      (("bad-filter".data.takeWhile opChar).length = 0 ∨
        (("bad-filter".data.takeWhile opChar).length = 1 ∧ "bad-filter".data.length = 1))) ∧
    sizeFilterPass "bad-filter" 500 = false :=
  c6_malformed_filter "bad-filter".data "bad-filter" 500 (by decide) (by decide)

/-- C9 counterexample: the sort key contains no original-path
component, so two distinct paths with identical transliterations (as
for pinyin homophones: 妈 and 媽 both transliterate to `ma`) receive
identical keys — the key does not distinguish every pair of distinct
paths, contradicting the claimed original-path tiebreak. -/
theorem c9_counterexample :
    getSortKey (fun _ => "ma.txt") "妈.txt" = getSortKey (fun _ => "ma.txt") "媽.txt" ∧
    ("妈.txt" : String) ≠ "媽.txt" := by
  refine ⟨by decide, by decide⟩

/-- C9 (amended): the sort key of `get_sort_key` is a function of the
depth and the transliterated segments alone — equal transliterations at
equal depth give equal keys.  Determinism of the final order for tied
keys comes from the stability of Python's sort (traversal order is
kept), not from an original-path comparison inside the key. -/
theorem c9_key_ignores_original_path (T : String → String) (p q : String)
    (hlen : (pathParts p).length = (pathParts q).length)
    (hmap : (pathParts p).map T = (pathParts q).map T) :
    getSortKey T p = getSortKey T q := by
  simp [getSortKey, hlen, hmap]

theorem c9_witness :
    getSortKey (fun _ => "x") "a.txt" = getSortKey (fun _ => "x") "b.txt" :=
  c9_key_ignores_original_path (fun _ => "x") "a.txt" "b.txt" (by decide) (by decide)
